import Mathlib

/-!
Shallow embedding of the core of the `rag-assessment` repository
(`app/services/chunking.py` and `app/services/rag.py`) together with
theorems settling the specification claims about it.

Python strings are modelled as `List Char` (chunking module) or `String`
(RAG module); Python ints as `Int`/`Nat`; dictionary keys that may be
absent as `Option`; external collaborators (embedder, vector store,
conversation store, language model) as function parameters, with the
language model returning `Except` to model a call that may raise.
-/

/-- ASCII whitespace, as matched by Python's `\s` and `str.strip()`
(restricted to the ASCII range, which is all the repository's cleaning
can produce or consume meaningfully). -/
def isPySpace (c : Char) : Bool :=
  c = ' ' || c = '\t' || c = '\n' || c = '\r' || c = '\x0b' || c = '\x0c'

/-- Python `str.strip()`: drop whitespace from both ends. -/
def pyStrip (l : List Char) : List Char :=
  ((l.dropWhile isPySpace).reverse.dropWhile isPySpace).reverse

/-- Normalize one slice index the way Python does for `s[a:b]`:
negative indices count from the end, then the index is clamped to
`[0, len]`. -/
def sliceIdx (len : Nat) (i : Int) : Nat :=
  if i < 0 then ((len : Int) + i).toNat else min i.toNat len

/-- Python slice `s[a:b]` on a character list. -/
def pySlice (l : List Char) (a b : Int) : List Char :=
  (l.take (sliceIdx l.length b)).drop (sliceIdx l.length a)

/-- Replace each maximal run of characters satisfying `p` by the single
character `rep`; `inRun` records whether the previous character was part
of a run.  This is `re.sub(p+, rep, text)` for a character class `p`. -/
def collapseRunsAux (p : Char → Bool) (rep : Char) : Bool → List Char → List Char
  | _, [] => []
  | inRun, c :: rest =>
    if p c then
      if inRun then collapseRunsAux p rep true rest
      else rep :: collapseRunsAux p rep true rest
    else c :: collapseRunsAux p rep false rest

/-- `re.sub(r'\s+', ' ', text)`. -/
def collapseWs (l : List Char) : List Char :=
  collapseRunsAux isPySpace ' ' false l

/-- `re.sub(r'\n+', '\n', text)` (fixed-size strategy's `_clean_text`). -/
def collapseNl (l : List Char) : List Char :=
  collapseRunsAux (fun c => c = '\n') '\n' false l

/-- `re.sub(r'\n+', ' ', text)` (semantic strategy's `_clean_text`). -/
def collapseNlToSpace (l : List Char) : List Char :=
  collapseRunsAux (fun c => c = '\n') ' ' false l

/-- `FixedSizeChunking._clean_text`: collapse whitespace runs to a space,
newline runs to a newline, then strip the ends. -/
def cleanTextFixed (l : List Char) : List Char :=
  pyStrip (collapseNl (collapseWs l))

/-- `SemanticChunking._clean_text`: collapse whitespace runs to a space,
newline runs to a space, then strip the ends. -/
def cleanTextSem (l : List Char) : List Char :=
  pyStrip (collapseNlToSpace (collapseWs l))

/-- One chunk produced by `FixedSizeChunking.chunk`: the dictionary with
keys `chunk_index`, `chunk_text`, `chunk_size`, `start_position`,
`end_position`. -/
structure FixedChunk where
  chunk_index : Nat
  chunk_text : List Char
  chunk_size : Nat
  start_position : Int
  end_position : Int
deriving DecidableEq, Repr

/-- The `while start < len(text)` loop of `FixedSizeChunking.chunk`,
fuel-indexed: `none` means the fuel ran out before the loop exited (used
to witness non-termination of the Python loop).  Mirrors the body: take
the window `text[start:start+chunk_size]`, emit it (stripped) when its
stripped form is non-empty, advance `start` to `end - chunk_overlap`,
and break when the new start is non-positive while the window end has
reached the end of the text. -/
def chunkLoop (sz ov : Nat) (text : List Char) : Nat → Int → Nat → Option (List FixedChunk)
  | 0, start, _ =>
    if start < (text.length : Int) then none else some []
  | Nat.succ fuel, start, idx =>
    if start < (text.length : Int) then
      match (if start + (sz : Int) - (ov : Int) ≤ 0 ∧ (text.length : Int) ≤ start + (sz : Int)
             then some []
             else chunkLoop sz ov text fuel (start + (sz : Int) - (ov : Int))
                    (if (pyStrip (pySlice text start (start + (sz : Int)))).isEmpty
                     then idx else idx + 1)) with
      | none => none
      | some rest =>
        if (pyStrip (pySlice text start (start + (sz : Int)))).isEmpty then some rest
        else some ({ chunk_index := idx,
                     chunk_text := pyStrip (pySlice text start (start + (sz : Int))),
                     chunk_size := (pySlice text start (start + (sz : Int))).length,
                     start_position := start, end_position := start + (sz : Int) } :: rest)
    else some []

/-- `FixedSizeChunking.chunk`: clean the text and run the window loop
from offset 0 with index 0.  The fuel `length + 1` is provably
sufficient whenever `chunk_overlap < chunk_size`. -/
def fixedChunk (sz ov : Nat) (text : List Char) : Option (List FixedChunk) :=
  chunkLoop sz ov (cleanTextFixed text) ((cleanTextFixed text).length + 1) 0 0

/-- Does the accumulated (reversed) fragment end in `.`, `!` or `?` —
the lookbehind of `re.split(r'(?<=[.!?])\s+', text)`. -/
def headIsPunct : List Char → Bool
  | [] => false
  | c :: _ => c = '.' || c = '!' || c = '?'

mutual
/-- Scanner for `re.split(r'(?<=[.!?])\s+', text)`: `acc` holds the
current fragment reversed; a whitespace character right after `.`, `!`
or `?` ends the fragment and starts a separator run. -/
def splitSentGo : List Char → List Char → List (List Char)
  | acc, [] => [acc.reverse]
  | acc, c :: rest =>
    if isPySpace c ∧ headIsPunct acc then acc.reverse :: splitSentSkip rest
    else splitSentGo (c :: acc) rest

/-- Consume the rest of a maximal whitespace separator run; a trailing
separator leaves a final empty fragment, as `re.split` does. -/
def splitSentSkip : List Char → List (List Char)
  | [] => [[]]
  | c :: rest =>
    if isPySpace c then splitSentSkip rest
    else splitSentGo [c] rest
end

/-- `SemanticChunking._split_into_sentences`: split on sentence
boundaries, then `[s.strip() for s in sentences if s.strip()]`. -/
def splitIntoSentences (text : List Char) : List (List Char) :=
  (((splitSentGo [] text).map pyStrip).filter (fun s => !s.isEmpty))

/-- One chunk produced by `SemanticChunking.chunk`: the dictionary with
keys `chunk_index`, `chunk_text`, `chunk_size`, `sentence_count`. -/
structure SemChunk where
  chunk_index : Nat
  chunk_text : List Char
  chunk_size : Nat
  sentence_count : Nat
deriving DecidableEq, Repr

/-- `" ".join(current_chunk)`. -/
def joinSp (l : List (List Char)) : List Char :=
  List.intercalate [' '] l

/-- The sentence-accumulation loop of `SemanticChunking.chunk`,
including the trailing flush: close the running group when the next
sentence would push it past `chunk_size`, and emit a closed group only
when its joined length reaches `min_chunk_size`. -/
def semLoop (sz minSz : Nat) : List (List Char) → List (List Char) → Nat → Nat → List SemChunk
  | [], current, _, idx =>
    if current.isEmpty then []
    else
      if minSz ≤ (joinSp current).length then
        [{ chunk_index := idx, chunk_text := joinSp current,
           chunk_size := (joinSp current).length, sentence_count := current.length }]
      else []
  | s :: rest, current, curSize, idx =>
    if sz < curSize + s.length ∧ ¬current.isEmpty then
      if minSz ≤ (joinSp current).length then
        { chunk_index := idx, chunk_text := joinSp current,
          chunk_size := (joinSp current).length, sentence_count := current.length }
          :: semLoop sz minSz rest [s] s.length (idx + 1)
      else semLoop sz minSz rest [s] s.length idx
    else semLoop sz minSz rest (current ++ [s]) (curSize + s.length) idx

/-- `SemanticChunking.chunk`: clean, split into sentences, accumulate. -/
def semanticChunk (sz minSz : Nat) (text : List Char) : List SemChunk :=
  semLoop sz minSz (splitIntoSentences (cleanTextSem text)) [] 0 0

/-! ## RAG module (`app/services/rag.py`) -/

/-- One conversation message as stored by `RedisService.save_message`
and read back by `get_conversation_history`; a key missing from the
parsed dictionary is modelled by the empty string, matching
`msg.get("role", "")` / `msg.get("content", "")`. -/
structure Message where
  role : String
  content : String
deriving DecidableEq, Repr

/-- The `metadata` dictionary of a vector-store search result; every
key may be absent. -/
structure SRMetadata where
  document_id : Option String
  filename : Option String
  chunk_text : Option String
deriving DecidableEq, Repr

/-- One raw search result from the vector store: `metadata` and `score`
may each be absent, matching `result.get("metadata", {})` and
`result.get("score", 0.0)`.  Scores are modelled as rationals. -/
structure SearchResult where
  metadata : Option SRMetadata
  score : Option ℚ
deriving DecidableEq, Repr

/-- One formatted source record built by `RAGService._format_sources`. -/
structure Source where
  document_id : String
  filename : String
  chunk_text : String
  relevance_score : ℚ
deriving DecidableEq, Repr

/-- Python `str.lower()` (ASCII). -/
def pyLower (s : String) : String :=
  ⟨s.data.map Char.toLower⟩

/-- Python `str.capitalize()`: first character upper-cased, the rest
lower-cased. -/
def pyCapitalize (s : String) : String :=
  match s.data with
  | [] => ""
  | c :: rest => ⟨Char.toUpper c :: rest.map Char.toLower⟩

/-- Python `str.strip()` on a `String`. -/
def pyStripS (s : String) : String :=
  ⟨pyStrip s.data⟩

/-- Python `s[:n]` on a `String`. -/
def pyTakeS (n : Nat) (s : String) : String :=
  ⟨s.data.take n⟩

/-- Python substring containment `needle in hay`. -/
def strContains (hay needle : String) : Bool :=
  (List.range (hay.data.length + 1)).any
    (fun i => decide ((hay.data.drop i).take needle.data.length = needle.data))

/-- The fixed keyword list of `RAGService._is_booking_intent`. -/
def bookingKeywords : List String :=
  ["book", "schedule", "interview", "appointment", "meeting", "set up", "arrange", "reserve"]

/-- `RAGService._is_booking_intent`: lower-case the query and test each
keyword for substring containment. -/
def isBookingIntent (q : String) : Bool :=
  bookingKeywords.any (fun kw => strContains (pyLower q) kw)

/-- Round a rational to the nearest integer, ties to even — the
semantics of Python's `round` on an exact value. -/
def roundHalfEven (x : ℚ) : ℤ :=
  let f := ⌊x⌋
  if x - f < 1/2 then f
  else if 1/2 < x - f then f + 1
  else if f % 2 = 0 then f else f + 1

/-- Python `round(x, 4)` on an exact rational score. -/
def pyRound4 (x : ℚ) : ℚ :=
  (roundHalfEven (x * 10000) : ℚ) / 10000

/-- The per-result body of the `_format_sources` loop: defaulted
metadata lookups, a 200-character preview with an unconditional `"..."`
suffix, and the score rounded to 4 decimal digits. -/
def formatSource (r : SearchResult) : Source :=
  let md := r.metadata.getD ⟨none, none, none⟩
  { document_id := md.document_id.getD "",
    filename := md.filename.getD "Unknown",
    chunk_text := pyTakeS 200 (md.chunk_text.getD "") ++ "...",
    relevance_score := pyRound4 (r.score.getD 0) }

/-- `RAGService._format_sources`: the accumulation loop over the search
results, appending one formatted source per result. -/
def formatSources (results : List SearchResult) : List Source :=
  results.foldl (fun acc r => acc ++ [formatSource r]) []

/-- The rendering of one history message inside `_generate_answer`:
`f"{role.capitalize()}: {content}"`. -/
def formatHistoryEntry (m : Message) : String :=
  pyCapitalize m.role ++ ": " ++ m.content

/-- The history-rendering loop of `RAGService._generate_answer`: walk
`conversation_history[-6:]` and append a formatted line for each entry
whose role and content are both truthy (non-empty). -/
def renderHistoryLines (history : List Message) : List String :=
  (history.drop (history.length - 6)).foldl
    (fun acc m => if m.role ≠ "" ∧ m.content ≠ "" then acc ++ [formatHistoryEntry m] else acc) []

/-- `history_text = "\n".join(history_parts)`. -/
def buildHistoryText (history : List Message) : String :=
  String.intercalate "\n" (renderHistoryLines history)

/-- The context-rendering loop of `_generate_answer`:
`[Source <idx>: <filename>]\n<chunk text>\n` per result, 1-based. -/
def contextParts (results : List SearchResult) : List String :=
  results.enum.map (fun p =>
    "[Source " ++ toString (p.1 + 1) ++ ": "
      ++ ((p.2.metadata.getD ⟨none, none, none⟩).filename.getD "Unknown") ++ "]\n"
      ++ ((p.2.metadata.getD ⟨none, none, none⟩).chunk_text.getD "") ++ "\n")

/-- `context_text = "\n".join(context_parts)`. -/
def buildContextText (results : List SearchResult) : String :=
  String.intercalate "\n" (contextParts results)

/-- The fixed system prompt of `_generate_answer`. -/
def systemPrompt : String :=
  "You are a helpful AI assistant. Answer questions based on the provided context.\nIf the context doesn"
    ++ String.singleton (Char.ofNat 39)
    ++ "t contain relevant information, say so politely.\nBe concise and accurate. Use the conversation history for context."

/-- The user-prompt template of `_generate_answer`, with the empty-text
placeholders. -/
def userPromptOf (historyText contextText query : String) : String :=
  "Previous conversation:\n"
    ++ (if historyText ≠ "" then historyText else "No previous conversation")
    ++ "\n\nContext from documents:\n"
    ++ (if contextText ≠ "" then contextText else "No relevant context found")
    ++ "\n\nQuestion: " ++ query
    ++ "\n\nPlease provide a clear and concise answer based on the context above."

/-- `RAGService._generate_answer`: build the prompts, call the language
model, strip a successful completion, and convert any raised error into
the fail-soft answer string. -/
def generateAnswer (llm : String → String → Except String String)
    (query : String) (results : List SearchResult) (history : List Message) : String :=
  match llm systemPrompt (userPromptOf (buildHistoryText history) (buildContextText results) query) with
  | Except.ok content => pyStripS content
  | Except.error e => "Error generating answer: " ++ e

/-- One observable external call made by `RAGService.query`, in order. -/
inductive Effect where
  | embedCall : String → Effect
  | searchCall : Nat → Effect
  | historyRead : Nat → Effect
  | historyWrite : String → String → Effect
deriving DecidableEq, Repr

/-- The dictionary returned by `RAGService.query`: the `booking_intent`
shape carries `message`, the `answer` shape carries `answer`. -/
structure QueryResult where
  type : String
  answer : Option String
  message : Option String
  sources : List Source
deriving DecidableEq, Repr

/-- The outcome of one `RAGService.query` call: the returned dictionary,
the session's conversation log after the call, and the external calls
performed. -/
structure QueryOutcome where
  result : QueryResult
  history : List Message
  effects : List Effect
deriving DecidableEq, Repr

/-- The booking short-circuit message of `RAGService.query`. -/
def bookingMessage : String :=
  "I detected you want to book an interview. Please provide: name, email, date (YYYY-MM-DD), and time (HH:MM)"

/-- `RAGService.query`: booking short-circuit, else embed, search, read
the last 10 stored messages, generate the answer, append the user and
assistant messages, and format the sources.  The collaborators are
passed in: `llm` (may raise), `embed`, `search`, and the session's
stored message list `stored`. -/
def ragQuery (llm : String → String → Except String String)
    (embed : String → List ℚ) (search : List ℚ → Nat → List SearchResult)
    (stored : List Message) (userQuery : String) (topK : Nat) : QueryOutcome :=
  if isBookingIntent userQuery then
    { result := { type := "booking_intent", answer := none,
                  message := some bookingMessage, sources := [] },
      history := stored, effects := [] }
  else
    let queryEmbedding := embed userQuery
    let searchResults := search queryEmbedding topK
    let conversationHistory := stored.drop (stored.length - 10)
    let answer := generateAnswer llm userQuery searchResults conversationHistory
    { result := { type := "answer", answer := some answer, message := none,
                  sources := formatSources searchResults },
      history := stored ++ [{ role := "user", content := userQuery },
                            { role := "assistant", content := answer }],
      effects := [Effect.embedCall userQuery, Effect.searchCall topK, Effect.historyRead 10,
                  Effect.historyWrite "user" userQuery, Effect.historyWrite "assistant" answer] }

/-! ## Helper lemmas about the Python string primitives -/

lemma mem_dropWhile_of_not {α : Type} {p : α → Bool} :
    ∀ {l : List α} {x : α}, x ∈ l → p x = false → x ∈ l.dropWhile p := by
  intro l
  induction l with
  | nil => intro x hx _; exact absurd hx (List.not_mem_nil x)
  | cons c rest ih =>
    intro x hx hpx
    rw [List.dropWhile_cons]
    by_cases hc : p c
    · simp only [hc, if_true]
      rcases List.mem_cons.1 hx with heq | hrest
      · subst heq; rw [hc] at hpx; cases hpx
      · exact ih hrest hpx
    · simp only [hc, if_false]
      exact hx

lemma dropWhile_ne_nil_exists {α : Type} {p : α → Bool} :
    ∀ (l : List α), l.dropWhile p ≠ [] → ∃ x ∈ l.dropWhile p, p x = false := by
  intro l
  induction l with
  | nil => intro h; simp [List.dropWhile] at h
  | cons c rest ih =>
    intro h
    rw [List.dropWhile_cons] at h ⊢
    by_cases hc : p c
    · simp only [hc, if_true] at h ⊢
      exact ih h
    · simp only [hc, if_false]
      exact ⟨c, List.mem_cons_self c rest, Bool.eq_false_iff.2 hc⟩

lemma pyStrip_sublist (l : List Char) : List.Sublist (pyStrip l) l := by
  unfold pyStrip
  have h1 : List.Sublist (l.dropWhile isPySpace) l := List.dropWhile_sublist _
  have h2 : List.Sublist ((l.dropWhile isPySpace).reverse.dropWhile isPySpace)
      (l.dropWhile isPySpace).reverse := List.dropWhile_sublist _
  have h3 := h2.reverse
  rw [List.reverse_reverse] at h3
  exact h3.trans h1

lemma length_pyStrip_le (l : List Char) : (pyStrip l).length ≤ l.length :=
  (pyStrip_sublist l).length_le

lemma mem_pyStrip_of_not_space {l : List Char} {x : Char}
    (hx : x ∈ l) (hpx : isPySpace x = false) : x ∈ pyStrip l := by
  unfold pyStrip
  rw [List.mem_reverse]
  exact mem_dropWhile_of_not (List.mem_reverse.2 (mem_dropWhile_of_not hx hpx)) hpx

lemma pyStrip_ne_nil_exists {l : List Char} (h : pyStrip l ≠ []) :
    ∃ x ∈ pyStrip l, isPySpace x = false := by
  unfold pyStrip at h ⊢
  have h2 : (l.dropWhile isPySpace).reverse.dropWhile isPySpace ≠ [] := by
    intro hnil
    rw [hnil] at h
    exact h rfl
  obtain ⟨x, hxmem, hxp⟩ := dropWhile_ne_nil_exists _ h2
  exact ⟨x, List.mem_reverse.2 hxmem, hxp⟩

lemma length_pySlice_window (l : List Char) (start : Int) (sz : Nat) (h0 : 0 ≤ start) :
    (pySlice l start (start + sz)).length ≤ sz := by
  unfold pySlice sliceIdx
  simp only [List.length_drop, List.length_take]
  split_ifs <;> omega

lemma mem_pySlice_window (l : List Char) (start : Int) (sz : Nat) (i : Nat) (hi : i < l.length)
    (h0 : 0 ≤ start) (h1 : start ≤ (i : Int)) (h2 : (i : Int) < start + sz) :
    l.get ⟨i, hi⟩ ∈ pySlice l start (start + sz) := by
  have ha : sliceIdx l.length start ≤ i := by
    unfold sliceIdx; split_ifs <;> omega
  have hb : i < sliceIdx l.length (start + sz) := by
    unfold sliceIdx; split_ifs <;> omega
  unfold pySlice
  have hlen : i - sliceIdx l.length start
      < ((l.take (sliceIdx l.length (start + sz))).drop (sliceIdx l.length start)).length := by
    simp only [List.length_drop, List.length_take]
    omega
  refine List.mem_iff_getElem.2 ⟨i - sliceIdx l.length start, hlen, ?_⟩
  have heq : sliceIdx l.length start + (i - sliceIdx l.length start) = i := by omega
  rw [List.getElem_drop, List.getElem_take]
  simp only [heq]
  rfl

/-- Invariant of the fixed-size window loop under a valid configuration
(`ov < sz`): with enough fuel the loop returns, the emitted chunk
indices are consecutive from `idx`, every chunk is the stripped window
slice recorded with the raw window length, and every non-whitespace
position at or past `start` is covered by some emitted chunk. -/
lemma chunkLoop_spec (sz ov : Nat) (text : List Char) (hov : ov < sz) :
    ∀ (fuel : Nat) (start : Int) (idx : Nat),
      0 ≤ start →
      (text.length : Int) - start ≤ (fuel : Int) * ((sz : Int) - (ov : Int)) →
      ∃ cs, chunkLoop sz ov text fuel start idx = some cs ∧
        cs.map FixedChunk.chunk_index = List.range' idx cs.length ∧
        (∀ c ∈ cs,
          start ≤ c.start_position ∧ 0 ≤ c.start_position ∧
          c.end_position = c.start_position + (sz : Int) ∧
          c.chunk_text = pyStrip (pySlice text c.start_position c.end_position) ∧
          c.chunk_size = (pySlice text c.start_position c.end_position).length ∧
          c.chunk_text ≠ [] ∧
          (∃ ch ∈ c.chunk_text, isPySpace ch = false) ∧
          c.chunk_text.length ≤ c.chunk_size ∧ c.chunk_size ≤ sz) ∧
        (∀ (i : Nat) (hi : i < text.length), start ≤ (i : Int) →
          isPySpace (text.get ⟨i, hi⟩) = false →
          ∃ c ∈ cs, c.start_position ≤ (i : Int) ∧ (i : Int) < c.end_position ∧
            text.get ⟨i, hi⟩ ∈ c.chunk_text) := by
  intro fuel
  induction fuel with
  | zero =>
    intro start idx h0 hfuel
    norm_num at hfuel
    have hns : ¬ (start < (text.length : Int)) := by omega
    refine ⟨[], by simp [chunkLoop, hns], by simp [List.range'], by simp, ?_⟩
    intro i hi hile _
    exfalso
    have : (i : Int) < (text.length : Int) := by exact_mod_cast hi
    omega
  | succ f ih =>
    intro start idx h0 hfuel
    by_cases hlt : start < (text.length : Int)
    · have hd : (1 : Int) ≤ (sz : Int) - (ov : Int) := by omega
      have hbreak : ¬ (start + (sz : Int) - (ov : Int) ≤ 0
          ∧ (text.length : Int) ≤ start + (sz : Int)) := by
        rintro ⟨hb1, -⟩
        omega
      have h0' : 0 ≤ start + (sz : Int) - (ov : Int) := by omega
      have hfuel' : (text.length : Int) - (start + (sz : Int) - (ov : Int))
          ≤ (f : Int) * ((sz : Int) - (ov : Int)) := by
        have hexp : ((f : Int) + 1) * ((sz : Int) - (ov : Int))
            = (f : Int) * ((sz : Int) - (ov : Int)) + ((sz : Int) - (ov : Int)) := by ring
        push_cast at hfuel
        rw [hexp] at hfuel
        linarith
      obtain ⟨rest, hrest, hmap, hprops, hcov⟩ :=
        ih (start + (sz : Int) - (ov : Int))
          (if (pyStrip (pySlice text start (start + (sz : Int)))).isEmpty
           then idx else idx + 1) h0' hfuel'
      by_cases hemp : (pyStrip (pySlice text start (start + (sz : Int)))).isEmpty = true
      · rw [if_pos hemp] at hrest hmap
        refine ⟨rest, ?_, hmap, ?_, ?_⟩
        · simp only [chunkLoop, if_pos hlt, if_neg hbreak, if_pos hemp, hrest]
        · intro c hc
          obtain ⟨hs, rest'⟩ := hprops c hc
          exact ⟨by omega, rest'⟩
        · intro i hi hile hsp
          by_cases hie : (i : Int) < start + (sz : Int)
          · exfalso
            have hmem := mem_pySlice_window text start sz i hi h0 hile hie
            have hmem2 := mem_pyStrip_of_not_space hmem hsp
            rw [List.isEmpty_iff] at hemp
            rw [hemp] at hmem2
            exact absurd hmem2 (List.not_mem_nil _)
          · exact hcov i hi (by omega) hsp
      · rw [if_neg hemp] at hrest hmap
        have hemp' : (pyStrip (pySlice text start (start + (sz : Int)))).isEmpty = false :=
          Bool.eq_false_iff.2 hemp
        have hnenil : pyStrip (pySlice text start (start + (sz : Int))) ≠ [] :=
          List.isEmpty_eq_false.1 hemp'
        refine ⟨{ chunk_index := idx,
                  chunk_text := pyStrip (pySlice text start (start + (sz : Int))),
                  chunk_size := (pySlice text start (start + (sz : Int))).length,
                  start_position := start, end_position := start + (sz : Int) } :: rest,
                ?_, ?_, ?_, ?_⟩
        · simp only [chunkLoop, if_pos hlt, if_neg hbreak, if_neg hemp, hrest]
        · simp only [List.map_cons, List.length_cons, List.range'_succ, hmap]
        · intro c hc
          rcases List.mem_cons.1 hc with heq | hmem
          · subst heq
            refine ⟨le_refl _, h0, rfl, rfl, rfl, hnenil, pyStrip_ne_nil_exists hnenil,
              length_pyStrip_le _, length_pySlice_window text start sz h0⟩
          · obtain ⟨hs, rest'⟩ := hprops c hmem
            exact ⟨by omega, rest'⟩
        · intro i hi hile hsp
          by_cases hie : (i : Int) < start + (sz : Int)
          · refine ⟨_, List.mem_cons_self _ _, hile, hie, ?_⟩
            exact mem_pyStrip_of_not_space (mem_pySlice_window text start sz i hi h0 hile hie) hsp
          · obtain ⟨c, hcmem, hrest'⟩ := hcov i hi (by omega) hsp
            exact ⟨c, List.mem_cons_of_mem _ hcmem, hrest'⟩
    · refine ⟨[], by simp [chunkLoop, hlt], by simp [List.range'], by simp, ?_⟩
      intro i hi hile _
      exfalso
      have : (i : Int) < (text.length : Int) := by exact_mod_cast hi
      omega

/-- Invariant of the semantic sentence-accumulation loop: emitted chunk
indices are consecutive from `idx`, every emitted chunk passes the
`min_chunk_size` floor, and its recorded size is its text's length. -/
lemma semLoop_spec (sz minSz : Nat) :
    ∀ (sents current : List (List Char)) (curSize idx : Nat),
      (semLoop sz minSz sents current curSize idx).map SemChunk.chunk_index
          = List.range' idx (semLoop sz minSz sents current curSize idx).length
      ∧ ∀ c ∈ semLoop sz minSz sents current curSize idx,
          minSz ≤ c.chunk_text.length ∧ c.chunk_size = c.chunk_text.length := by
  intro sents
  induction sents with
  | nil =>
    intro current curSize idx
    constructor
    · simp only [semLoop]
      split_ifs <;> simp [List.range'_one]
    · intro c hc
      simp only [semLoop] at hc
      split_ifs at hc with h1 h2
      · exact absurd hc (List.not_mem_nil c)
      · rcases List.mem_singleton.1 hc with heq
        subst heq
        exact ⟨h2, rfl⟩
      · exact absurd hc (List.not_mem_nil c)
  | cons s rest ih =>
    intro current curSize idx
    simp only [semLoop]
    split_ifs with h1 h2
    · obtain ⟨ihm, ihp⟩ := ih [s] s.length (idx + 1)
      constructor
      · simp only [List.map_cons, List.length_cons, List.range'_succ, ihm]
      · intro c hc
        rcases List.mem_cons.1 hc with heq | hmem
        · subst heq
          exact ⟨h2, rfl⟩
        · exact ihp c hmem
    · exact ih [s] s.length idx
    · exact ih (current ++ [s]) (curSize + s.length) idx

/-- Accumulating a mapped element per list element is `map`. -/
lemma foldl_append_map {α β : Type} (f : α → β) :
    ∀ (l : List α) (acc : List β),
      l.foldl (fun a x => a ++ [f x]) acc = acc ++ l.map f := by
  intro l
  induction l with
  | nil => intro acc; simp
  | cons c rest ih => intro acc; simp [ih]

/-- Conditionally accumulating a mapped element per list element is
`filter` then `map`. -/
lemma foldl_append_filter_map {α β : Type} (p : α → Prop) [DecidablePred p] (f : α → β) :
    ∀ (l : List α) (acc : List β),
      l.foldl (fun a x => if p x then a ++ [f x] else a) acc
        = acc ++ (l.filter (fun x => decide (p x))).map f := by
  intro l
  induction l with
  | nil => intro acc; simp
  | cons c rest ih =>
    intro acc
    by_cases hc : p c
    · simp [List.foldl_cons, List.filter_cons, hc, ih]
    · simp [List.foldl_cons, List.filter_cons, hc, ih]

/-- A list with a member failing the filter loses length under `filter`. -/
lemma length_filter_lt_of_mem_not {α : Type} (p : α → Bool) :
    ∀ (l : List α) (x : α), x ∈ l → p x = false → (l.filter p).length < l.length := by
  intro l
  induction l with
  | nil => intro x hx _; cases hx
  | cons c rest ih =>
    intro x hx hpx
    rw [List.filter_cons]
    rcases List.mem_cons.1 hx with heq | hmem
    · subst heq
      have hneg : ¬ (p x = true) := by rw [hpx]; exact Bool.false_ne_true
      rw [if_neg hneg]
      have := List.length_filter_le p rest
      simp only [List.length_cons]
      omega
    · by_cases hc : p c
      · rw [if_pos hc]
        have := ih x hmem hpx
        simp only [List.length_cons]
        omega
      · rw [if_neg hc]
        have := List.length_filter_le p rest
        simp only [List.length_cons]
        omega

/-- The default fuel `length + 1` satisfies the loop-variant bound for
any valid configuration. -/
lemma default_fuel_bound (len sz ov : Nat) (hov : ov < sz) :
    (len : Int) - 0 ≤ (((len + 1 : Nat)) : Int) * ((sz : Int) - (ov : Int)) := by
  have hd : (1 : Int) ≤ (sz : Int) - (ov : Int) := by omega
  have hpos : (0 : Int) ≤ ((len : Int) + 1) := by positivity
  have h := mul_le_mul_of_nonneg_left hd hpos
  push_cast
  linarith [h]

/-- C3: for every text and every valid configuration (`chunk_size > 0`,
`0 ≤ chunk_overlap < chunk_size`), the fixed-size strategy succeeds; its
chunks are listed in `chunk_index` order (indices `0, 1, ...`), no
chunk's text is empty or whitespace-only, every non-whitespace position
of the whitespace-normalized text is covered by some chunk's window and
its character appears in that chunk's text (coverage up to boundary
trimming, with overlap duplication allowed), and empty input yields zero
chunks. -/
theorem fixed_chunk_coverage (sz ov : Nat) (text : List Char)
    (hsz : 0 < sz) (hov : ov < sz) :
    ∃ cs, fixedChunk sz ov text = some cs ∧
      cs.map FixedChunk.chunk_index = List.range cs.length ∧
      (∀ c ∈ cs, c.chunk_text ≠ [] ∧ ∃ ch ∈ c.chunk_text, isPySpace ch = false) ∧
      (∀ (i : Nat) (hi : i < (cleanTextFixed text).length),
        isPySpace ((cleanTextFixed text).get ⟨i, hi⟩) = false →
        ∃ c ∈ cs, c.start_position ≤ (i : Int) ∧ (i : Int) < c.end_position ∧
          (cleanTextFixed text).get ⟨i, hi⟩ ∈ c.chunk_text) ∧
      (text = [] → cs = []) := by
  obtain ⟨cs, hcs, hmap, hprops, hcov⟩ :=
    chunkLoop_spec sz ov (cleanTextFixed text) hov ((cleanTextFixed text).length + 1) 0 0
      le_rfl (default_fuel_bound (cleanTextFixed text).length sz ov hov)
  refine ⟨cs, by unfold fixedChunk; exact hcs, ?_, ?_, ?_, ?_⟩
  · rw [hmap, List.range_eq_range']
  · intro c hc
    obtain ⟨-, -, -, -, -, hne, hex, -, -⟩ := hprops c hc
    exact ⟨hne, hex⟩
  · intro i hi hsp
    exact hcov i hi (by omega) hsp
  · intro htxt
    subst htxt
    have hnil : chunkLoop sz ov (cleanTextFixed []) ((cleanTextFixed []).length + 1) 0 0
        = some [] := by
      show chunkLoop sz ov [] 1 0 0 = some []
      norm_num [chunkLoop]
    rw [hnil] at hcs
    exact (Option.some.inj hcs).symm

/-- Witness for C3 at `chunk_size = 5`, `chunk_overlap = 2` on the text
`"hello world"`. -/
theorem fixed_chunk_coverage_witness :
    0 < 5 ∧ 2 < 5 ∧
    (∃ cs, fixedChunk 5 2 ("hello world".data) = some cs ∧
      cs.map FixedChunk.chunk_index = List.range cs.length ∧
      (∀ c ∈ cs, c.chunk_text ≠ [] ∧ ∃ ch ∈ c.chunk_text, isPySpace ch = false) ∧
      (∀ (i : Nat) (hi : i < (cleanTextFixed ("hello world".data)).length),
        isPySpace ((cleanTextFixed ("hello world".data)).get ⟨i, hi⟩) = false →
        ∃ c ∈ cs, c.start_position ≤ (i : Int) ∧ (i : Int) < c.end_position ∧
          (cleanTextFixed ("hello world".data)).get ⟨i, hi⟩ ∈ c.chunk_text) ∧
      ("hello world".data = [] → cs = [])) :=
  ⟨by decide, by decide,
    fixed_chunk_coverage 5 2 ("hello world".data) (by decide) (by decide)⟩

/-- C4: for every valid configuration the fixed-size loop terminates
(the default fuel suffices); in particular for `chunk_size = 10`,
`chunk_overlap = 3` on a 100-character normalized text the loop finishes
within `⌈100/7⌉ = 15` window steps and no chunk's text exceeds 10
characters. -/
theorem fixed_chunk_termination :
    (∀ (sz ov : Nat) (text : List Char), 0 < sz → ov < sz →
      ∃ cs, fixedChunk sz ov text = some cs) ∧
    (∀ text : List Char, (cleanTextFixed text).length = 100 →
      ∃ cs, chunkLoop 10 3 (cleanTextFixed text) 15 0 0 = some cs ∧
        ∀ c ∈ cs, c.chunk_text.length ≤ 10) := by
  constructor
  · intro sz ov text _ hov
    obtain ⟨cs, hcs, -, -, -⟩ :=
      chunkLoop_spec sz ov (cleanTextFixed text) hov ((cleanTextFixed text).length + 1) 0 0
        le_rfl (default_fuel_bound (cleanTextFixed text).length sz ov hov)
    exact ⟨cs, by unfold fixedChunk; exact hcs⟩
  · intro text h100
    obtain ⟨cs, hcs, -, hprops, -⟩ :=
      chunkLoop_spec 10 3 (cleanTextFixed text) (by norm_num) 15 0 0 le_rfl
        (by rw [h100]; norm_num)
    refine ⟨cs, hcs, fun c hc => ?_⟩
    obtain ⟨-, -, -, -, -, -, -, hle, hsz⟩ := hprops c hc
    exact hle.trans hsz

/-- Witness for C4: a valid small configuration, and the 100-character
all-`'a'` text for the concrete 15-step bound. -/
theorem fixed_chunk_termination_witness :
    (0 < 5 ∧ 2 < 5 ∧ ∃ cs, fixedChunk 5 2 ("abcdef".data) = some cs) ∧
    ((cleanTextFixed (List.replicate 100 'a')).length = 100 ∧
      ∃ cs, chunkLoop 10 3 (cleanTextFixed (List.replicate 100 'a')) 15 0 0 = some cs ∧
        ∀ c ∈ cs, c.chunk_text.length ≤ 10) :=
  ⟨⟨by decide, by decide,
      fixed_chunk_termination.1 5 2 ("abcdef".data) (by decide) (by decide)⟩,
    by decide,
    fixed_chunk_termination.2 (List.replicate 100 'a') (by decide)⟩

/-- The fixed-size window loop never terminates once `chunk_overlap`
equals `chunk_size` on a text longer than one window: the start offset
never advances and the break guard never fires. -/
lemma chunkLoop_stuck (fuel idx : Nat) :
    chunkLoop 10 10 (List.replicate 11 'a') fuel 0 idx = none := by
  induction fuel generalizing idx with
  | zero => norm_num [chunkLoop]
  | succ f ihf =>
    have hlt : (0 : Int) < ((List.replicate 11 'a').length : Int) := by norm_num
    have hbreak : ¬ ((0 : Int) + ((10 : Nat) : Int) - ((10 : Nat) : Int) ≤ 0
        ∧ (((List.replicate 11 'a').length : Nat) : Int) ≤ (0 : Int) + ((10 : Nat) : Int)) := by
      norm_num
    have hstart : (0 : Int) + ((10 : Nat) : Int) - ((10 : Nat) : Int) = 0 := by norm_num
    simp only [chunkLoop, if_pos hlt, if_neg hbreak, hstart, ihf]
    norm_num [List.length_replicate]

/-- C5 (code bug): the source never validates
`chunk_overlap ≥ chunk_size` — `FixedSizeChunking.__init__` stores the
values unchecked — and for `chunk_size = chunk_overlap = 10` on an
11-character text the window loop runs forever (no fuel suffices), so no
`ConfigurationError` is raised and no chunk list is ever returned. -/
theorem fixed_chunk_overlap_not_rejected :
    (∀ (fuel idx : Nat),
      chunkLoop 10 10 (cleanTextFixed (List.replicate 11 'a')) fuel 0 idx = none) ∧
    fixedChunk 10 10 (List.replicate 11 'a') = none := by
  have hclean : cleanTextFixed (List.replicate 11 'a') = List.replicate 11 'a' := by decide
  constructor
  · intro fuel idx
    rw [hclean]
    exact chunkLoop_stuck fuel idx
  · unfold fixedChunk
    rw [hclean]
    exact chunkLoop_stuck _ _

/-- C6: for every input text, every chunk emitted by the semantic
strategy has text length at least `min_chunk_size` (groups below the
floor, including the trailing flush, are dropped), and the emitted
`chunk_index` values are exactly `0, 1, ..., n-1` in order. -/
theorem semantic_chunk_floor_and_dense_index (sz minSz : Nat) (text : List Char) :
    (∀ c ∈ semanticChunk sz minSz text, minSz ≤ c.chunk_text.length) ∧
    (semanticChunk sz minSz text).map SemChunk.chunk_index
      = List.range (semanticChunk sz minSz text).length := by
  obtain ⟨hmap, hprops⟩ := semLoop_spec sz minSz (splitIntoSentences (cleanTextSem text)) [] 0 0
  constructor
  · intro c hc
    exact (hprops c hc).1
  · rw [List.range_eq_range']
    exact hmap

/-- C9 counterexample: for `chunk_size = 3`, `chunk_overlap = 0` on
`"ab cd"`, the first fixed chunk records `chunk_size = 3` (the raw
window `"ab "`) while its stored `chunk_text` is the stripped `"ab"` of
length 2. -/
theorem chunk_size_field_mismatch_cex :
    ∃ c ∈ (fixedChunk 3 0 ("ab cd".data)).getD [],
      ¬ c.chunk_size = c.chunk_text.length := by decide

/-- C9 (amended): a fixed chunk's `chunk_size` is the length of the raw
(pre-strip) window slice, an upper bound for its stored text's length,
with equality not guaranteed; a semantic chunk's `chunk_size` equals its
text's length exactly. -/
theorem chunk_size_field_spec :
    (∀ (sz ov : Nat) (text : List Char), 0 < sz → ov < sz →
      ∀ cs, fixedChunk sz ov text = some cs →
        ∀ c ∈ cs,
          c.chunk_size = (pySlice (cleanTextFixed text) c.start_position c.end_position).length ∧
          c.chunk_text.length ≤ c.chunk_size) ∧
    (∀ (sz minSz : Nat) (text : List Char),
      ∀ c ∈ semanticChunk sz minSz text, c.chunk_size = c.chunk_text.length) := by
  constructor
  · intro sz ov text _ hov cs hcs c hc
    obtain ⟨cs', hcs', -, hprops, -⟩ :=
      chunkLoop_spec sz ov (cleanTextFixed text) hov ((cleanTextFixed text).length + 1) 0 0
        le_rfl (default_fuel_bound (cleanTextFixed text).length sz ov hov)
    unfold fixedChunk at hcs
    rw [hcs'] at hcs
    obtain rfl := Option.some.inj hcs
    obtain ⟨-, -, -, -, hsize, -, -, hle, -⟩ := hprops c hc
    exact ⟨hsize, hle⟩
  · intro sz minSz text c hc
    obtain ⟨-, hprops⟩ := semLoop_spec sz minSz (splitIntoSentences (cleanTextSem text)) [] 0 0
    exact (hprops c hc).2

/-- Witness for the amended C9 at `chunk_size = 3`, `chunk_overlap = 0`
on `"ab cd"`. -/
theorem chunk_size_field_spec_witness :
    0 < 3 ∧ 0 < 3 ∧
    fixedChunk 3 0 ("ab cd".data)
      = some [{ chunk_index := 0, chunk_text := ['a', 'b'], chunk_size := 3,
                start_position := 0, end_position := 3 },
              { chunk_index := 1, chunk_text := ['c', 'd'], chunk_size := 2,
                start_position := 3, end_position := 6 }] ∧
    (∀ c ∈ [({ chunk_index := 0, chunk_text := ['a', 'b'], chunk_size := 3,
               start_position := 0, end_position := 3 } : FixedChunk),
            { chunk_index := 1, chunk_text := ['c', 'd'], chunk_size := 2,
              start_position := 3, end_position := 6 }],
      c.chunk_size = (pySlice (cleanTextFixed ("ab cd".data)) c.start_position c.end_position).length ∧
      c.chunk_text.length ≤ c.chunk_size) :=
  ⟨by decide, by decide, by decide,
    chunk_size_field_spec.1 3 0 ("ab cd".data) (by decide) (by decide) _ (by decide)⟩

/-- `_format_sources` is exactly the per-result formatter mapped over
the input. -/
lemma formatSources_eq_map (rs : List SearchResult) :
    formatSources rs = rs.map formatSource := by
  unfold formatSources
  rw [foldl_append_map]
  exact List.nil_append _

/-- C8: formatting search results into `Source` records preserves
length and order (element `i` of the output is the formatter applied to
element `i` of the input — never re-sorted), each record is a function
of its own result with the documented defaults, the unconditional
`"..."` suffix, and 4-digit rounding, and formatting is deterministic. -/
theorem format_sources_spec (rs : List SearchResult) :
    formatSources rs = rs.map formatSource ∧
    (formatSources rs).length = rs.length ∧
    (∀ i : Nat, (formatSources rs)[i]? = rs[i]?.map formatSource) ∧
    (∀ r : SearchResult,
      (formatSource r).document_id = (r.metadata.getD ⟨none, none, none⟩).document_id.getD "" ∧
      (formatSource r).filename = (r.metadata.getD ⟨none, none, none⟩).filename.getD "Unknown" ∧
      (formatSource r).chunk_text
        = pyTakeS 200 ((r.metadata.getD ⟨none, none, none⟩).chunk_text.getD "") ++ "..." ∧
      (formatSource r).relevance_score = pyRound4 (r.score.getD 0)) ∧
    formatSources rs = formatSources rs := by
  refine ⟨formatSources_eq_map rs, ?_, ?_, ?_, rfl⟩
  · rw [formatSources_eq_map]
    exact List.length_map rs formatSource
  · intro i
    rw [formatSources_eq_map]
    exact List.getElem?_map formatSource rs i
  · intro r
    exact ⟨rfl, rfl, rfl, rfl⟩

/-- C7 counterexample: a six-message history in which the fourth entry
has empty content; the rendering loop emits only five lines, so it does
not render each of the last six entries. -/
def cexHistorySeven : List Message :=
  [{ role := "user", content := "a" }, { role := "assistant", content := "b" },
   { role := "user", content := "c" }, { role := "assistant", content := "" },
   { role := "user", content := "e" }, { role := "assistant", content := "f" }]

/-- C7 is false as stated: on `cexHistorySeven` (six messages, one with
empty content) the rendered lines are not the formatted last six
entries. -/
theorem history_render_not_all_last6 :
    cexHistorySeven.length = 6 ∧
    renderHistoryLines cexHistorySeven
      ≠ (cexHistorySeven.drop (cexHistorySeven.length - 6)).map formatHistoryEntry := by
  decide

/-- C7 (amended): the rendered history lines are exactly the entries
among the last six whose role and content are both non-empty, in
original chronological order, each formatted as
`<Role capitalized>: <content>`; entries before the last six never
appear, and at most six lines are rendered. -/
theorem history_render_last6_filter (history : List Message) :
    renderHistoryLines history
      = ((history.drop (history.length - 6)).filter
          (fun m => decide (m.role ≠ "" ∧ m.content ≠ ""))).map formatHistoryEntry ∧
    buildHistoryText history = String.intercalate "\n" (renderHistoryLines history) ∧
    (renderHistoryLines history).length ≤ 6 := by
  have h := foldl_append_filter_map (fun m : Message => m.role ≠ "" ∧ m.content ≠ "")
    formatHistoryEntry (history.drop (history.length - 6)) []
  have heq : renderHistoryLines history
      = ((history.drop (history.length - 6)).filter
          (fun m => decide (m.role ≠ "" ∧ m.content ≠ ""))).map formatHistoryEntry := by
    unfold renderHistoryLines
    rw [h]
    exact List.nil_append _
  refine ⟨heq, rfl, ?_⟩
  rw [heq]
  have h1 := List.length_filter_le (fun m : Message => decide (m.role ≠ "" ∧ m.content ≠ ""))
    (history.drop (history.length - 6))
  have h2 : (history.drop (history.length - 6)).length = history.length - (history.length - 6) :=
    List.length_drop _ _
  rw [List.length_map]
  omega

/-- C10: an entry of the last six with empty role or empty content is
silently skipped by the rendering loop, so fewer lines than entries are
rendered — in particular fewer than six lines even when the session
holds six or more messages. -/
theorem history_render_skips_empty (history : List Message) (m : Message)
    (hm : m ∈ history.drop (history.length - 6))
    (hempty : m.role = "" ∨ m.content = "") :
    (renderHistoryLines history).length < (history.drop (history.length - 6)).length ∧
    (6 ≤ history.length → (renderHistoryLines history).length < 6) := by
  have h := foldl_append_filter_map (fun m : Message => m.role ≠ "" ∧ m.content ≠ "")
    formatHistoryEntry (history.drop (history.length - 6)) []
  have heq : renderHistoryLines history
      = ((history.drop (history.length - 6)).filter
          (fun m => decide (m.role ≠ "" ∧ m.content ≠ ""))).map formatHistoryEntry := by
    unfold renderHistoryLines
    rw [h]
    exact List.nil_append _
  have hfail : (fun m : Message => decide (m.role ≠ "" ∧ m.content ≠ "")) m = false := by
    rcases hempty with h1 | h1 <;> simp [h1]
  have hlt := length_filter_lt_of_mem_not
    (fun m : Message => decide (m.role ≠ "" ∧ m.content ≠ ""))
    (history.drop (history.length - 6)) m hm hfail
  have h2 : (history.drop (history.length - 6)).length = history.length - (history.length - 6) :=
    List.length_drop _ _
  rw [heq, List.length_map]
  exact ⟨hlt, fun h6 => by omega⟩

/-- History used to witness C10: six messages, one with empty content. -/
def skipHistorySix : List Message :=
  [{ role := "user", content := "q1" }, { role := "assistant", content := "a1" },
   { role := "user", content := "q2" }, { role := "assistant", content := "" },
   { role := "user", content := "q3" }, { role := "assistant", content := "a3" }]

/-- Witness for C10 on `skipHistorySix`. -/
theorem history_render_skips_empty_witness :
    ({ role := "assistant", content := "" } : Message)
        ∈ skipHistorySix.drop (skipHistorySix.length - 6) ∧
    (({ role := "assistant", content := "" } : Message).role = ""
        ∨ ({ role := "assistant", content := "" } : Message).content = "") ∧
    ((renderHistoryLines skipHistorySix).length
        < (skipHistorySix.drop (skipHistorySix.length - 6)).length ∧
      (6 ≤ skipHistorySix.length → (renderHistoryLines skipHistorySix).length < 6)) :=
  ⟨by decide, by decide,
    history_render_skips_empty skipHistorySix { role := "assistant", content := "" }
      (by decide) (by decide)⟩

/-- C2: the booking short-circuit — booking intent holds exactly when
some keyword occurs in the lower-cased query; a booking query returns
the `booking_intent` result with no external calls, no history read or
write, and the fixed guidance message; a non-booking query takes the
answer branch. -/
theorem rag_query_booking_short_circuit
    (llm : String → String → Except String String) (embed : String → List ℚ)
    (search : List ℚ → Nat → List SearchResult) (stored : List Message)
    (q : String) (topK : Nat) :
    (isBookingIntent q = true ↔ ∃ kw ∈ bookingKeywords, strContains (pyLower q) kw = true) ∧
    (isBookingIntent q = true →
      (ragQuery llm embed search stored q topK).result.type = "booking_intent" ∧
      (ragQuery llm embed search stored q topK).effects = [] ∧
      (ragQuery llm embed search stored q topK).history = stored ∧
      (ragQuery llm embed search stored q topK).result.message = some bookingMessage ∧
      (ragQuery llm embed search stored q topK).result.sources = []) ∧
    (isBookingIntent q = false →
      (ragQuery llm embed search stored q topK).result.type = "answer") := by
  refine ⟨?_, ?_, ?_⟩
  · unfold isBookingIntent
    exact List.any_eq_true
  · intro h
    simp [ragQuery, if_pos h]
  · intro h
    have h' : ¬ (isBookingIntent q = true) := by rw [h]; exact Bool.false_ne_true
    simp [ragQuery, if_neg h']

/-- C1: for every non-booking query the pipeline returns an `answer`
result whose answer is the composed `_generate_answer` output, and
appends the user query then the assistant answer to the conversation
log unconditionally; when the language-model call raises, the answer is
the fail-soft string `"Error generating answer: <cause>"` (so the error
answer too is persisted). -/
theorem rag_query_fail_soft
    (llm : String → String → Except String String) (embed : String → List ℚ)
    (search : List ℚ → Nat → List SearchResult) (stored : List Message)
    (q : String) (topK : Nat) (hq : isBookingIntent q = false) :
    (ragQuery llm embed search stored q topK).result.type = "answer" ∧
    (ragQuery llm embed search stored q topK).result.answer
      = some (generateAnswer llm q (search (embed q) topK) (stored.drop (stored.length - 10))) ∧
    (ragQuery llm embed search stored q topK).history
      = stored ++ [{ role := "user", content := q },
                   { role := "assistant",
                     content := generateAnswer llm q (search (embed q) topK)
                       (stored.drop (stored.length - 10)) }] ∧
    (ragQuery llm embed search stored q topK).effects
      = [Effect.embedCall q, Effect.searchCall topK, Effect.historyRead 10,
         Effect.historyWrite "user" q,
         Effect.historyWrite "assistant"
           (generateAnswer llm q (search (embed q) topK) (stored.drop (stored.length - 10)))] ∧
    (∀ e : String, (∀ s u, llm s u = Except.error e) →
      (ragQuery llm embed search stored q topK).result.answer
        = some ("Error generating answer: " ++ e)) := by
  have h' : ¬ (isBookingIntent q = true) := by rw [hq]; exact Bool.false_ne_true
  refine ⟨?_, ?_, ?_, ?_, ?_⟩
  · simp [ragQuery, if_neg h']
  · simp [ragQuery, if_neg h']
  · simp [ragQuery, if_neg h']
  · simp [ragQuery, if_neg h']
  · intro e he
    simp only [ragQuery, if_neg h']
    show some (generateAnswer llm q (search (embed q) topK) (stored.drop (stored.length - 10)))
      = some ("Error generating answer: " ++ e)
    unfold generateAnswer
    rw [he]

/-- A language-model stub that raises on every call. -/
def llmDown : String → String → Except String String :=
  fun _ _ => Except.error "model down"

/-- An embedder stub. -/
def embedZero : String → List ℚ :=
  fun _ => []

/-- A vector-store stub returning no results. -/
def searchNone : List ℚ → Nat → List SearchResult :=
  fun _ _ => []

/-- Witness for C1 at the non-booking query `"hello"` with an
always-raising language model. -/
theorem rag_query_fail_soft_witness :
    isBookingIntent "hello" = false ∧
    (ragQuery llmDown embedZero searchNone [] "hello" 5).result.answer
      = some ("Error generating answer: " ++ "model down") :=
  ⟨by decide,
    (rag_query_fail_soft llmDown embedZero searchNone [] "hello" 5 (by decide)).2.2.2.2
      "model down" (fun _ _ => rfl)⟩

/-- Witness for C2 at the booking query
`"I want to schedule an interview"`. -/
theorem rag_query_booking_short_circuit_witness :
    isBookingIntent "I want to schedule an interview" = true ∧
    ((ragQuery llmDown embedZero searchNone [] "I want to schedule an interview" 5).result.type
        = "booking_intent" ∧
      (ragQuery llmDown embedZero searchNone [] "I want to schedule an interview" 5).effects = [] ∧
      (ragQuery llmDown embedZero searchNone [] "I want to schedule an interview" 5).history = [] ∧
      (ragQuery llmDown embedZero searchNone [] "I want to schedule an interview" 5).result.message
        = some bookingMessage ∧
      (ragQuery llmDown embedZero searchNone [] "I want to schedule an interview" 5).result.sources
        = []) :=
  ⟨by decide,
    (rag_query_booking_short_circuit llmDown embedZero searchNone []
        "I want to schedule an interview" 5).2.1 (by decide)⟩
